import Mathlib

/-!
Verification model of `src/server.py` (ge-dink-server).

Strings from the Python source are modelled as lists of characters
(`Str := List Char`); Python `dict`s built from JSON values are modelled as
association lists where `get` returns the first matching key and assignment
replaces the first occurrence (Python dicts have unique keys, so the two
semantics agree on every value that can actually arise, and the model is
still total on arbitrary association lists).

Machinery that lives outside the repository (the `json`, `urllib.parse` and
`datetime` standard-library modules, the storage adapters, the ASGI request
object) is passed in as explicit parameters ("oracles"), so every theorem
quantifies over their behaviour; concrete instantiations used in witnesses
and counterexamples agree with the real library on the inputs they are
applied to.

Python exceptions are modelled with `Except Unit`: a `try/except` block is a
`match` on the `Except` value of its body.
-/

abbrev Str := List Char

/-- JSON-like values, the result type of `json.loads` and the payload type. -/
inductive Json where
  | null : Json
  | bool : Bool → Json
  | num : Int → Json
  | str : Str → Json
  | arr : List Json → Json
  | obj : List (Str × Json) → Json

/-- Python truthiness of a JSON-like value (`if x:`). -/
def truthy : Json → Bool
  | .null => false
  | .bool b => b
  | .num n => n != 0
  | .str s => !s.isEmpty
  | .arr xs => !xs.isEmpty
  | .obj kvs => !kvs.isEmpty

/-- Is the value a mapping (Python `isinstance(x, dict)`)? -/
def Json.isObj : Json → Bool
  | .obj _ => true
  | _ => false

/-- Lookup `d.get(k)` on an association list: first matching key. -/
def aget {α : Type} : List (Str × α) → Str → Option α
  | [], _ => none
  | (k', v) :: rest, k => if k' = k then some v else aget rest k

/-- Membership `k in d` for a dict. -/
def hasKey {α : Type} (l : List (Str × α)) (k : Str) : Bool :=
  (aget l k).isSome

/-- Assignment `d[k] = v` on an association list: replace the first occurrence of the
key, or append when the key is absent (Python dict assignment). -/
def aset {α : Type} : List (Str × α) → Str → α → List (Str × α)
  | [], k, v => [(k, v)]
  | (k', v') :: rest, k, v =>
      if k' = k then (k, v) :: rest else (k', v') :: aset rest k v

/-- Does `s` start with `p`? (Python `s.startswith(p)` on char lists.) -/
def startsWithL : Str → Str → Bool
  | _, [] => true
  | [], _ :: _ => false
  | c :: cs, d :: ds => c = d && startsWithL cs ds

/-- Python `p in s` substring test. -/
def containsL : Str → Str → Bool
  | [], p => p.isEmpty
  | c :: cs, p => startsWithL (c :: cs) p || containsL cs p

/-- ASCII lower-casing of one character, the fragment of `str.lower()` the
claims exercise. -/
def lowerChar (c : Char) : Char :=
  if 'A' ≤ c ∧ c ≤ 'Z' then Char.ofNat (c.toNat + 32) else c

/-- ASCII upper-casing of one character (fragment of `str.upper()`). -/
def upperChar (c : Char) : Char :=
  if 'a' ≤ c ∧ c ≤ 'z' then Char.ofNat (c.toNat - 32) else c

def lowerS (s : Str) : Str := s.map lowerChar

def upperS (s : Str) : Str := s.map upperChar

/-- Model of `base_url.rstrip(. "/" .)`: drop every trailing slash. -/
def rstripSlash (s : Str) : Str :=
  ((s.reverse).dropWhile (fun c => c = '/')).reverse

/-- Characters the sanitiser keeps: the class `[A-Za-z0-9._-]` of the regex
in `_safe_name` (src/server.py line 141). -/
def allowedChar (c : Char) : Bool :=
  ('A' ≤ c && c ≤ 'Z') || ('a' ≤ c && c ≤ 'z') || ('0' ≤ c && c ≤ '9') ||
    c = '.' || c = '_' || c = '-'

/-- Model of `re.sub` with pattern `[^A-Za-z0-9._-]+` and replacement `"_"`,
written as a single left-to-right pass: the flag records whether the scan is
inside a run of disallowed characters, so a disallowed character emits an
underscore only when it opens a run. -/
def subDisallowedGo : Bool → Str → Str
  | _, [] => []
  | inRun, c :: rest =>
    if allowedChar c then c :: subDisallowedGo false rest
    else if inRun then subDisallowedGo true rest
    else '_' :: subDisallowedGo true rest

def subDisallowed (s : Str) : Str := subDisallowedGo false s

/-- Model of `_safe_name` (src/server.py lines 140-142). -/
def safe_name (fn : Str) : Str :=
  let fn1 := if fn.isEmpty then "upload.bin".data else fn
  let fn2 := subDisallowed fn1
  if fn2.isEmpty then "upload.bin".data else fn2

/-- The per-character sanitiser the claim describes (modelled from the
claim's words, for comparison with `safe_name`): each individual disallowed
character becomes one underscore. -/
def sanitizePerChar (fn : Str) : Str :=
  fn.map (fun c => if allowedChar c then c else '_')

theorem length_dropWhileLe {α : Type} (p : α → Bool) (l : List α) :
    (l.dropWhile p).length ≤ l.length := by
  induction l with
  | nil => simp [List.dropWhile]
  | cons a l ih =>
    simp only [List.dropWhile]
    cases p a
    · simp
    · simp; omega

/-- Run-collapsing description of the same regex substitution: each maximal
run of disallowed characters is consumed at once and replaced by one
underscore.  Used to state the amended form of the sanitiser claim. -/
def collapseRuns : Str → Str
  | [] => []
  | c :: rest =>
    if allowedChar c then c :: collapseRuns rest
    else '_' :: collapseRuns (rest.dropWhile (fun d => !allowedChar d))
termination_by s => s.length
decreasing_by
  · simp only [List.length_cons]; omega
  · have h := length_dropWhileLe (fun d => !allowedChar d) rest
    simp only [List.length_cons]; omega

/-- Clamp `limit = max(1, min(int(limit), 10000))` (src/server.py line 390). -/
def clampLimit (l : Int) : Int := max 1 (min l 10000)

/-- Clamp `offset = max(0, int(offset))` (src/server.py line 391). -/
def clampOffset (o : Int) : Int := max 0 o

/-- Python `a or b` for two optional strings followed by a truthiness test:
the result is the first operand that is a non-empty string, if any.  This is
the net effect of `saved = mapping.get(key) or mapping.get(key.lower())`
followed by `if saved:` in `_patch_attachment_urls`. -/
def truthyOptStr : Option Str → Option Str
  | some s => if s.isEmpty then none else some s
  | none => none

/-- The value substituted for a matched attachment reference once a mapping
entry `saved` is found (src/server.py lines 186-189). -/
def replHit (base saved : Str) : Json :=
  if startsWithL saved "http://".data || startsWithL saved "https://".data then
    Json.str saved
  else
    Json.str (rstripSlash base ++ "/uploads/".data ++ saved)

/-- The inner `repl` closure of `_patch_attachment_urls` (src/server.py
lines 178-190).  `low.split(. "://" ., 1)[1]` equals `low.drop 13`: `low`
begins with the 13-character prefix `attachment://` and the 10 characters
before the separator contain no colon, so the first occurrence of `://`
is at index 10.  The mapping is string-valued (as built by the caller), so
the `isinstance(saved, str)` guard is always satisfied. -/
def repl (m : List (Str × Str)) (base : Str) (u : Json) : Json :=
  match u with
  | Json.str s =>
    let low := lowerS s
    if startsWithL low "attachment://".data then
      let key := low.drop 13
      match truthyOptStr (aget m key) with
      | some saved => replHit base saved
      | none =>
        match truthyOptStr (aget m (lowerS key)) with
        | some saved => replHit base saved
        | none => Json.str s
    else Json.str s
  | v => v

/-- Rewriting of one value as the claim about the rewriter words it
(modelled from the claim, for comparison with `repl`): the suffix after the
scheme is taken from the original string unchanged and looked up
case-sensitively first, with a lower-cased fallback. -/
def replClaimSpec (m : List (Str × Str)) (base : Str) (u : Json) : Json :=
  match u with
  | Json.str s =>
    if startsWithL (lowerS s) "attachment://".data then
      let key := s.drop 13
      match truthyOptStr (aget m key) with
      | some saved => replHit base saved
      | none =>
        match truthyOptStr (aget m (lowerS key)) with
        | some saved => replHit base saved
        | none => Json.str s
    else Json.str s
  | v => v

/-- Rewriting of one value as the amended claim words it: the lookup key is
the lower-cased suffix, and a single lookup of it decides the rewrite (the
second, lower-cased lookup of the code is the same lookup repeated). -/
def replAmendedSpec (m : List (Str × Str)) (base : Str) (u : Json) : Json :=
  match u with
  | Json.str s =>
    let low := lowerS s
    if startsWithL low "attachment://".data then
      match truthyOptStr (aget m (low.drop 13)) with
      | some saved => replHit base saved
      | none => Json.str s
    else Json.str s
  | v => v

/-- Python `x == "url"` for a JSON value (list membership test `"url" in img`
compares elements with `==`; only the string `"url"` compares equal). -/
def isUrlElem : Json → Bool
  | Json.str s => decide (s = "url".data)
  | _ => false

/-- The effect of `img = emb.get(name) or {}; if "url" in img: img["url"] =
repl(img.get("url"))` on the value stored under `name`: `.ok none` when
nothing is mutated (value falsy, or a dict without `"url"`, or a
string/list not containing `"url"`), `.ok (some ikvs)` when the stored dict
is mutated in place to `ikvs`, and `.error` when the Python raises (`in` on
a truthy int/bool is a TypeError; `img.get`/`img["url"] = ...` on a string
or list is reached — and raises — exactly when the membership test
succeeded). -/
def slotNew (m : List (Str × Str)) (base : Str) (vo : Option Json) :
    Except Unit (Option (List (Str × Json))) :=
  let v := vo.getD Json.null
  let img := if truthy v then v else Json.obj []
  match img with
  | Json.obj ikvs =>
    if hasKey ikvs "url".data then
      Except.ok (some
        (aset ikvs "url".data (repl m base ((aget ikvs "url".data).getD Json.null))))
    else Except.ok none
  | Json.str s => if containsL s "url".data then Except.error () else Except.ok none
  | Json.arr xs => if xs.any isUrlElem then Except.error () else Except.ok none
  | _ => Except.error ()

/-- One `image`/`thumbnail` step of the embed loop: the in-place mutation of
the dict stored under `name` is written back into the embed (a mutation of a
truthy stored dict is visible through the embed; a falsy value was replaced
by a fresh `\x7b\x7d` whose mutation is unobservable, which is the
`.ok none` case of `slotNew`). -/
def updateSlot (m : List (Str × Str)) (base : Str) (kvs : List (Str × Json))
    (name : Str) : Except Unit (List (Str × Json)) :=
  match slotNew m base (aget kvs name) with
  | Except.error e => Except.error e
  | Except.ok none => Except.ok kvs
  | Except.ok (some ikvs) => Except.ok (aset kvs name (Json.obj ikvs))

/-- Processing of one element of the `embeds` list.  A non-dict element makes
`emb.get` raise (AttributeError). -/
def patchEmb (m : List (Str × Str)) (base : Str) : Json → Except Unit Json
  | Json.obj kvs =>
    (match updateSlot m base kvs "image".data with
    | Except.error e => Except.error e
    | Except.ok kvs1 =>
      match updateSlot m base kvs1 "thumbnail".data with
      | Except.error e => Except.error e
      | Except.ok kvs2 => Except.ok (Json.obj kvs2))
  | _ => Except.error ()

def patchEmbs (m : List (Str × Str)) (base : Str) :
    List Json → Except Unit (List Json)
  | [] => Except.ok []
  | e :: es =>
    match patchEmb m base e with
    | Except.error err => Except.error err
    | Except.ok e' =>
      match patchEmbs m base es with
      | Except.error err => Except.error err
      | Except.ok es' => Except.ok (e' :: es')

/-- Model of `_patch_attachment_urls` (src/server.py lines 174-202).  The `for emb in
embeds` loop iterates over `payload.get("embeds") or []`: a falsy value gives
an empty loop; a truthy non-list raises on iteration or on `emb.get`
(strings iterate to characters and dicts to keys, both of which lack `.get`;
numbers and booleans are not iterable).  Calling the function on a non-dict
payload raises at `payload.get`.  The screenshot step (src/server.py lines
200-201), applied to the dict left by the embeds loop, is split out as
`patchScreenshot`. -/
def patchScreenshot (m : List (Str × Str)) (base : Str)
    (kvs1 : List (Str × Json)) : Json :=
  if hasKey kvs1 "screenshot_url".data then
    Json.obj (aset kvs1 "screenshot_url".data
      (repl m base ((aget kvs1 "screenshot_url".data).getD Json.null)))
  else Json.obj kvs1

def patch_attachment_urls (payload : Json) (m : List (Str × Str)) (base : Str) :
    Except Unit Json :=
  match payload with
  | Json.obj kvs =>
    (if truthy ((aget kvs "embeds".data).getD Json.null) then
      match (aget kvs "embeds".data).getD Json.null with
      | Json.arr xs =>
        (match patchEmbs m base xs with
        | Except.error err => Except.error err
        | Except.ok xs' =>
          Except.ok (patchScreenshot m base (aset kvs "embeds".data (Json.arr xs'))))
      | _ => Except.error ()
    else Except.ok (patchScreenshot m base kvs))
  | _ => Except.error ()

/-- A file part of a multipart form.  `filename` models
`getattr(file, "filename", "") or ""` (absent/None collapses to the empty
string); `save` is the outcome of `await _save_upload(file, token, base)`:
the dereferenceable URL the storage adapter produced, or an uncaught storage
exception.  The adapter itself (Firebase upload with local-disk fallback,
src/server.py lines 144-172) is an external collaborator reached through
this oracle. -/
structure FilePart where
  filename : Str
  save : Except Unit Str

inductive FormVal where
  | file : FilePart → FormVal
  | field : Str → FormVal

/-- The inbound request, as visible to `extract_payload`: the `content-type`
header, the raw body after `.decode("utf-8", "replace")` (which is total),
the parsed multipart form `request.form()` (an oracle: `.error` models a
parse failure raised by the framework), and `str(request.base_url)`. -/
structure Req where
  contentTypeHeader : Option Str
  body : Str
  form : Except Unit (List (Str × FormVal))
  baseUrl : Str

/-- Python `str.strip()` on ASCII whitespace. -/
def isSpaceChar (c : Char) : Bool :=
  c = ' ' || c = '\t' || c = '\n' || c = '\r' || c = '\x0b' || c = '\x0c'

def stripWs (s : Str) : Str :=
  ((s.dropWhile isSpaceChar).reverse.dropWhile isSpaceChar).reverse

/-- The `for k, v in form.multi_items()` loop of the multipart branch
(src/server.py lines 249-256): value fields are collected first-wins
(`fields.setdefault`), uploads are saved and recorded last-wins under the
lower-cased original filename, and a storage failure propagates out of the
loop. -/
def processFormItems : List (Str × FormVal) → List (Str × Str) →
    List (Str × Str) → Except Unit (List (Str × Str) × List (Str × Str))
  | [], fs, sv => Except.ok (fs, sv)
  | (_, FormVal.file f) :: rest, fs, sv =>
    match f.save with
    | Except.error e => Except.error e
    | Except.ok url =>
      let orig := stripWs f.filename
      let sv' := if orig.isEmpty then sv else aset sv (lowerS orig) url
      processFormItems rest fs sv'
  | (k, FormVal.field s) :: rest, fs, sv =>
    let fs' := if hasKey fs k then fs else fs ++ [(k, s)]
    processFormItems rest fs' sv

/-- Resolution `fields.get("payload_json") or fields.get("payload") or "{}"`
(src/server.py line 257): the first non-empty of the two fields, defaulting
to the literal two-character string of an empty JSON object. -/
def rawOf (fs : List (Str × Str)) : Str :=
  match truthyOptStr (aget fs "payload_json".data) with
  | some s => s
  | none =>
    match truthyOptStr (aget fs "payload".data) with
    | some s => s
    | none => "\x7b\x7d".data

def fieldsJson (fs : List (Str × Str)) : List (Str × Json) :=
  fs.map (fun kv => (kv.1, Json.str kv.2))

/-- Body of the multipart `try:` block (src/server.py lines 245-263),
parameterised by `jloads`, the behaviour of `json.loads` (`none` models a
raised decode error). -/
def multipartBranch (jloads : Str → Option Json) (req : Req) :
    Except Unit Json :=
  match req.form with
  | Except.error err => Except.error err
  | Except.ok items =>
    match processFormItems items [] [] with
    | Except.error err => Except.error err
    | Except.ok fssv =>
      let raw := rawOf fssv.1
      let payload :=
        match jloads raw with
        | some j => j
        | none => Json.obj (fieldsJson fssv.1)
      patch_attachment_urls payload fssv.2 req.baseUrl

/-- One `if key in fields: obj = _try_json(fields[key]); if isinstance(obj,
dict): return obj` step of the form-urlencoded branch (src/server.py lines
233-237): yields the decoded object only when the field is present and
decodes to a dict. -/
def tryFieldKey (jloads : Str → Option Json) (fields : List (Str × Str))
    (k : Str) : Option Json :=
  match aget fields k with
  | none => none
  | some v =>
    match jloads v with
    | some (Json.obj kvs) => some (Json.obj kvs)
    | _ => none

/-- Body of the form-urlencoded branch (src/server.py lines 229-238),
parameterised by `parseQS`, the behaviour of `urllib.parse.parse_qs` on the
decoded body (total on strings). -/
def urlencodedBranch (jloads : Str → Option Json)
    (parseQS : Str → List (Str × List Str)) (req : Req) : Json :=
  let fields := (parseQS req.body).map
    (fun kv => (kv.1, match kv.2 with | v :: _ => v | [] => ([] : Str)))
  match tryFieldKey jloads fields "payload_json".data with
  | some o => o
  | none =>
    match tryFieldKey jloads fields "payload".data with
    | some o => o
    | none => Json.obj (fieldsJson fields)

/-- The last-ditch strategy of `extract_payload` (src/server.py lines
268-275): decode the raw body and return it only when it is a dict, else an
empty document. -/
def finalStrategy (jloads : Str → Option Json) (body : Str) : Except Unit Json :=
  match jloads body with
  | some (Json.obj kvs) => Except.ok (Json.obj kvs)
  | _ => Except.ok (Json.obj [])

/-- The multipart strategy followed by the final fallback: the guarded
multipart branch whose raised exceptions fall through (its
`try/except: pass`) to `finalStrategy`. -/
def step3Strategy (jloads : Str → Option Json) (req : Req) : Except Unit Json :=
  if containsL (lowerS (req.contentTypeHeader.getD []))
      "multipart/form-data".data then
    match multipartBranch jloads req with
    | Except.ok j => Except.ok j
    | Except.error _ => finalStrategy jloads req.body
  else finalStrategy jloads req.body

/-- The form-urlencoded strategy followed by the rest of the chain (its
branch body cannot raise in the model: decoding with `replace` and
`parse_qs` are total). -/
def step2Strategy (jloads : Str → Option Json)
    (parseQS : Str → List (Str × List Str)) (req : Req) : Except Unit Json :=
  if containsL (lowerS (req.contentTypeHeader.getD []))
      "application/x-www-form-urlencoded".data then
    Except.ok (urlencodedBranch jloads parseQS req)
  else step3Strategy jloads req

/-- Model of `extract_payload` (src/server.py lines 210-275), written as the
ordered chain of strategies the code's guarded `try` blocks form.  Each
content-type branch is guarded by a substring test on the lower-cased
header; a branch body that raises falls through, ending in `finalStrategy`,
which cannot fail.  `await request.json()` is `json.loads` of the decoded
body. -/
def extract_payload (jloads : Str → Option Json)
    (parseQS : Str → List (Str × List Str)) (req : Req) : Except Unit Json :=
  if containsL (lowerS (req.contentTypeHeader.getD []))
      "application/json".data then
    match jloads req.body with
    | some j => Except.ok j
    | none => step2Strategy jloads parseQS req
  else step2Strategy jloads parseQS req

/-- Python `repr` of a JSON-like value (string elements are shown quoted;
escaping inside strings is not modelled, as no claim depends on it). -/
def pyReprStr : Json → String
  | Json.null => "None"
  | Json.bool b => if b then "True" else "False"
  | Json.num n => toString n
  | Json.str s => "\x27" ++ String.mk s ++ "\x27"
  | Json.arr xs => "[" ++ String.intercalate ", "
      (xs.attach.map (fun x => pyReprStr x.1)) ++ "]"
  | Json.obj kvs => "\x7b" ++ String.intercalate ", "
      (kvs.attach.map (fun kv =>
        "\x27" ++ String.mk kv.1.1 ++ "\x27: " ++ pyReprStr kv.1.2)) ++ "\x7d"
termination_by j => sizeOf j
decreasing_by
  · have h := List.sizeOf_lt_of_mem x.2
    simp only [Json.arr.sizeOf_spec]
    omega
  · have h := List.sizeOf_lt_of_mem kv.2
    rcases kv with ⟨⟨k, v⟩, hm⟩
    simp only [Prod.mk.sizeOf_spec] at h
    simp only [Json.obj.sizeOf_spec]
    omega

/-- Python `str(x)` of a JSON-like value (used on `payload.get("type", "")`):
identity on strings, `repr` on everything else. -/
def pyStr : Json → Str
  | Json.str s => s
  | j => (pyReprStr j).data

/-- The event record inserted by `dink_webhook` (src/server.py lines
337-347).  `receivedAt` is carried both as the BSON datetime `time_dt`
(modelled as an integer instant) and as the ISO display string `time`;
rendering an instant to ISO text is delegated to the `datetime` library and
therefore supplied by the clock oracle (`nowIso`).  `id` is assigned by the
store on insertion. -/
structure EventDoc where
  id : Str
  token : Str
  time : Str
  time_dt : Option Int
  ip : Option Str
  eventType : Str
  payload : Json

/-- Model of `dink_webhook` (src/server.py lines 326-349): the document handed to
`events_col.insert_one`, given the clock (`now` as an instant, `nowIso` its
rendered ISO string) and the id the store assigns. -/
def dink_webhook (jloads : Str → Option Json)
    (parseQS : Str → List (Str × List Str)) (req : Req) (token : Str)
    (now : Int) (nowIso : Str) (ip : Option Str) (assignedId : Str) : EventDoc :=
  let payload :=
    match extract_payload jloads parseQS req with
    | Except.ok j => j
    | Except.error _ => Json.obj []
  let event_type :=
    match payload with
    | Json.obj kvs => upperS (pyStr ((aget kvs "type".data).getD (Json.str [])))
    | _ => []
  { id := assignedId, token := token, time := nowIso, time_dt := some now,
    ip := ip, eventType := event_type, payload := payload }

/-- A `datetime` value as returned by `datetime.fromisoformat`: the
wall-clock fields read as seconds since the epoch (`naive`) and the
`utcoffset` in seconds when the timestamp carried an explicit offset
(`tz = none` models a naive datetime). -/
structure PyDateTime where
  naive : Int
  tz : Option Int

/-- The UTC instant denoted by a parsed datetime after
`if dt.tzinfo is None: dt = dt.replace(tzinfo=timezone.utc)`: a naive value
is taken as already UTC, an aware one is shifted by its offset. -/
def instantOf (dt : PyDateTime) : Int := dt.naive - dt.tz.getD 0

/-- Model of `datetime.fromtimestamp(n, tz=timezone.utc)`: defined exactly on the
instants whose UTC rendering falls within `datetime`'s year range 1..9999
(0001-01-01T00:00:00Z is -62135596800, 9999-12-31T23:59:59Z is
253402300799); outside it the call raises (OverflowError/ValueError),
modelled as `none`. -/
def fromtimestampUtc (n : Int) : Option Int :=
  if -62135596800 ≤ n ∧ n ≤ 253402300799 then some n else none

def isDigitChar (c : Char) : Bool := '0' ≤ c && c ≤ '9'

/-- Model of `s.isdigit()` restricted to ASCII: non-empty and all digits. -/
def isAllDigits (s : Str) : Bool := !s.isEmpty && s.all isDigitChar

/-- Conversion `int(s)` on an all-digit string. -/
def digitsVal (s : Str) : Int :=
  s.foldl (fun a c => a * 10 + ((c.toNat : Int) - 48)) 0

/-- Model of `_parse_time_param_dt` (src/server.py lines 296-311), parameterised by
the behaviour of `datetime.fromisoformat` (`none` models a raised
ValueError).  The result is the UTC instant the returned aware datetime
denotes, or `none` when the code returns `None` (empty input, or any
exception inside the `try`). -/
def parse_time_param_dt (fromiso : Str → Option PyDateTime)
    (val : Option Str) : Option Int :=
  match val with
  | none => none
  | some v =>
    if v.isEmpty then none
    else
      let s := stripWs v
      if isAllDigits s then fromtimestampUtc (digitsVal s)
      else
        let s2 := if s.getLast? = some 'Z' then s.dropLast ++ "+00:00".data else s
        match fromiso s2 with
        | none => none
        | some dt => some (instantOf dt)

/-- The Mongo filter document built by `recent_json` (src/server.py lines
393-406): optional exact matches on `token` and `eventType`, and an optional
inclusive window on `time_dt`. -/
structure Query where
  qToken : Option Str
  qType : Option Str
  qSince : Option Int
  qUntil : Option Int

/-- The query parameters of `GET /recent.json` with their FastAPI defaults
(`token=""`, `limit=500`, `offset=0`, the rest absent). -/
structure QueryParams where
  token : Str
  limit : Int
  offset : Int
  since : Option Str
  untl : Option Str
  type : Option Str

def buildQuery (fromiso : Str → Option PyDateTime) (p : QueryParams) : Query :=
  { qToken := if p.token.isEmpty then none else some p.token,
    qType :=
      match p.type with
      | none => none
      | some t => if t.isEmpty then none else some (upperS t),
    qSince := parse_time_param_dt fromiso p.since,
    qUntil := parse_time_param_dt fromiso p.untl }

/-- Mongo's evaluation of the filter on one stored document: `$gte`/`$lte`
on `time_dt` are inclusive, and a document missing `time_dt` fails a window
comparison. -/
def docMatches (q : Query) (d : EventDoc) : Bool :=
  (match q.qToken with | none => true | some s => decide (d.token = s)) &&
  (match q.qType with | none => true | some s => decide (d.eventType = s)) &&
  (if q.qSince.isSome || q.qUntil.isSome then
    match d.time_dt with
    | none => false
    | some t =>
      (match q.qSince with | none => true | some s => decide (s ≤ t)) &&
      (match q.qUntil with | none => true | some u => decide (t ≤ u))
  else true)

def cmpOptInt : Option Int → Option Int → Ordering
  | none, none => Ordering.eq
  | none, some _ => Ordering.lt
  | some _, none => Ordering.gt
  | some a, some b => compare a b

def cmpStr : Str → Str → Ordering
  | [], [] => Ordering.eq
  | [], _ :: _ => Ordering.lt
  | _ :: _, [] => Ordering.gt
  | a :: xs, b :: ys => (compare a b).then (cmpStr xs ys)

/-- The sort key of `sort=[("time_dt", -1), ("time", -1)]`: `time_dt`
descending, ties broken by the `time` string descending (BSON orders a
missing `time_dt` below every present one). -/
def cmpDocKey (a b : EventDoc) : Ordering :=
  (cmpOptInt a.time_dt b.time_dt).then (cmpStr a.time b.time)

def insertDesc (d : EventDoc) : List EventDoc → List EventDoc
  | [] => [d]
  | e :: es =>
    if cmpDocKey d e = Ordering.lt then e :: insertDesc d es else d :: e :: es

/-- Descending sort of the matching documents.  Mongo does not pin the
relative order of equal keys; insertion sort is this model's deterministic
choice for it. -/
def sortDesc (l : List EventDoc) : List EventDoc := l.foldr insertDesc []

/-- Model of `events_col.count_documents(query)`. -/
def count_documents (q : Query) (store : List EventDoc) : Nat :=
  (store.filter (fun d => docMatches q d)).length

/-- Model of `events_col.find(query, sort=..., skip=offset, limit=limit)`. -/
def findDocs (q : Query) (skip lim : Nat) (store : List EventDoc) :
    List EventDoc :=
  ((sortDesc (store.filter (fun d => docMatches q d))).drop skip).take lim

/-- One element of the `events` array of the response (src/server.py lines
414-421).  An empty `time` string models a missing `time` field (both are
falsy, triggering the fallback to `time_dt.isoformat()`, rendered by the
`isoFmt` oracle). -/
structure Row where
  id : Str
  token : Str
  time : Option Str
  eventType : Str
  ip : Option Str
  payload : Json

def rowOf (isoFmt : Int → Str) (d : EventDoc) : Row :=
  { id := d.id, token := d.token,
    time :=
      if d.time.isEmpty then
        match d.time_dt with
        | some t => some (isoFmt t)
        | none => none
      else some d.time,
    eventType := d.eventType, ip := d.ip,
    payload := if truthy d.payload then d.payload else Json.obj [] }

structure Resp where
  total : Nat
  limit : Int
  offset : Int
  next_offset : Option Int
  events : List Row

/-- Model of `recent_json` (src/server.py lines 373-433). -/
def recent_json (isoFmt : Int → Str) (fromiso : Str → Option PyDateTime)
    (p : QueryParams) (store : List EventDoc) : Resp :=
  let lim := clampLimit p.limit
  let off := clampOffset p.offset
  let query := buildQuery fromiso p
  let total := count_documents query store
  let out := (findDocs query off.toNat lim.toNat store).map (rowOf isoFmt)
  let nxt : Int := off + out.length
  { total := total, limit := lim, offset := off,
    next_offset := if nxt ≥ (total : Int) then none else some nxt,
    events := out }



/-!  Concrete oracle instantiations used by witnesses and counterexamples.
Each agrees with the real standard-library function on every input it is
applied to in this file.  -/

/-- A `json.loads` that fails on every input (as on any non-JSON body). -/
def jloadsNone : Str → Option Json := fun _ => none

/-- A `json.loads` restricted to the input `[1]`, on which the real decoder
returns the one-element list `[1]` — not a dict. -/
def jloadsArr1 : Str → Option Json :=
  fun s => if s = "[1]".data then some (Json.arr [Json.num 1]) else none

/-- A `json.loads` restricted to the two-character empty-object literal, on
which the real decoder returns the empty dict. -/
def jloadsObjEmpty : Str → Option Json :=
  fun s => if s = "\x7b\x7d".data then some (Json.obj []) else none

/-- A `parse_qs` for bodies carrying no fields. -/
def parseQSEmpty : Str → List (Str × List Str) := fun _ => []

/-- A `datetime.fromisoformat` that raises on every input. -/
def fromisoNone : Str → Option PyDateTime := fun _ => none

/-- A request with no content-type header and a non-JSON body. -/
def reqNoCtype : Req :=
  { contentTypeHeader := none, body := "x".data, form := Except.error (),
    baseUrl := [] }

/-- An `application/json` request whose body is the JSON array `[1]`. -/
def reqJsonArr : Req :=
  { contentTypeHeader := some "application/json".data, body := "[1]".data,
    form := Except.error (), baseUrl := [] }

/-- A multipart request carrying one ordinary value field `a=1`, no file
parts, and no `payload_json`/`payload` field; its raw body is not JSON. -/
def reqMultipartA : Req :=
  { contentTypeHeader := some "multipart/form-data; boundary=x".data,
    body := "b".data,
    form := Except.ok [("a".data, FormVal.field "1".data)],
    baseUrl := "http://h".data }

/-- Query parameters with an empty `token` and an empty `type` (the FastAPI
defaults for everything else). -/
def pEmptyFilters : QueryParams :=
  { token := [], limit := 500, offset := 0, since := none, untl := none,
    type := some [] }

/-- A stored event document used to instantiate query-layer witnesses. -/
def docA : EventDoc :=
  { id := "1".data, token := "t".data, time := "x".data, time_dt := some 0,
    ip := none, eventType := "A".data, payload := Json.null }

/-!  ## Theorems  -/

theorem subDisallowedGo_true (rest : Str) :
    subDisallowedGo true rest =
      subDisallowedGo false (rest.dropWhile (fun d => !allowedChar d)) := by
  induction rest with
  | nil => rfl
  | cons c r ih =>
    by_cases h : allowedChar c = true
    · simp [subDisallowedGo, List.dropWhile, h]
    · simp only [Bool.not_eq_true] at h
      simp [subDisallowedGo, List.dropWhile, h, ih]

theorem subDisallowedGo_eq_collapseRuns (s : Str) :
    subDisallowedGo false s = collapseRuns s := by
  have H : ∀ n (t : Str), t.length ≤ n →
      subDisallowedGo false t = collapseRuns t := by
    intro n
    induction n with
    | zero =>
      intro t ht
      cases t with
      | nil => rw [collapseRuns]; rfl
      | cons c r => simp at ht
    | succ n ih =>
      intro t ht
      cases t with
      | nil => rw [collapseRuns]; rfl
      | cons c r =>
        rw [collapseRuns]
        by_cases h : allowedChar c = true
        · simp only [subDisallowedGo, h, if_true]
          rw [ih r (by simp at ht; omega)]
        · simp only [Bool.not_eq_true] at h
          simp only [subDisallowedGo, h, Bool.false_eq_true, if_false]
          rw [subDisallowedGo_true]
          have hlen := length_dropWhileLe (fun d => !allowedChar d) r
          rw [ih _ (by simp at ht; omega)]
  exact H s.length s le_rfl

theorem subDisallowedGo_ne_nil (c : Char) (r : Str) :
    subDisallowedGo false (c :: r) ≠ [] := by
  by_cases h : allowedChar c = true
  · simp [subDisallowedGo, h]
  · simp only [Bool.not_eq_true] at h
    simp [subDisallowedGo, h]

/-- C6 (counterexample): on `"a  b"` — two consecutive spaces — the code
produces a single underscore, while the claim's per-character substitution
would produce two. -/
theorem C6_counterexample :
    safe_name "a  b".data = "a_b".data ∧
    sanitizePerChar "a  b".data = "a__b".data ∧
    "a_b".data ≠ "a__b".data := by
  refine ⟨by decide, by decide, by decide⟩

/-- C6 (amended): the sanitised filename replaces each maximal run of
consecutive characters outside `[A-Za-z0-9._-]` with a single underscore
(`n` consecutive disallowed characters become one underscore, not `n`), and
defaults to `upload.bin` when the input filename is empty. -/
theorem C6_safe_name_collapses_runs (fn : Str) :
    safe_name fn = if fn.isEmpty then "upload.bin".data else collapseRuns fn := by
  by_cases h : fn.isEmpty = true
  · have : fn = [] := by cases fn <;> simp_all
    subst this
    decide
  · simp only [h, Bool.false_eq_true, if_false]
    have hne : fn ≠ [] := by cases fn <;> simp_all
    match fn, hne with
    | c :: r, _ =>
      unfold safe_name subDisallowed
      simp only [List.isEmpty_cons, Bool.false_eq_true, if_false]
      have h2 := subDisallowedGo_ne_nil c r
      have h3 : (subDisallowedGo false (c :: r)).isEmpty = false := by
        cases hh : subDisallowedGo false (c :: r) with
        | nil => exact absurd hh h2
        | cons x xs => simp
      simp only [h3, Bool.false_eq_true, if_false]
      exact subDisallowedGo_eq_collapseRuns (c :: r)

/-- C7: the effective `limit` is clamped into `[1, 10000]` and the effective
`offset` into `[0, ∞)`; in-range inputs pass through unchanged, out-of-range
inputs are clamped (0 becomes 1, 999999 becomes 10000, -5 becomes 0), and no
input is rejected (the clamps are total functions on the integers). -/
theorem C7_clamping (l o : Int) :
    clampLimit l = (if l < 1 then 1 else if 10000 < l then 10000 else l) ∧
    clampOffset o = (if o < 0 then 0 else o) ∧
    1 ≤ clampLimit l ∧ clampLimit l ≤ 10000 ∧ 0 ≤ clampOffset o ∧
    clampLimit 0 = 1 ∧ clampLimit 999999 = 10000 ∧ clampOffset (-5) = 0 := by
  unfold clampLimit clampOffset
  refine ⟨?_, ?_, ?_, ?_, ?_, by decide, by decide, by decide⟩ <;>
    simp only [max_def, min_def] <;> split_ifs <;> omega

theorem charToNatOfNat (n : Nat) (h : n.isValidChar) : (Char.ofNat n).toNat = n := by
  unfold Char.ofNat
  rw [dif_pos h]
  unfold Char.ofNatAux
  simp [Char.toNat, UInt32.toNat]

theorem lowerChar_idem (c : Char) : lowerChar (lowerChar c) = lowerChar c := by
  unfold lowerChar
  have ha : ('A' : Char).val.toBitVec.toNat = 65 := rfl
  have hz : ('Z' : Char).val.toBitVec.toNat = 90 := rfl
  by_cases h : 'A' ≤ c ∧ c ≤ 'Z'
  · rw [if_pos h]
    obtain ⟨h1, h2⟩ := h
    rw [Char.le_def, UInt32.le_def, BitVec.le_def] at h1 h2
    rw [ha] at h1; rw [hz] at h2
    have hv : (c.toNat + 32).isValidChar := by
      left; simp only [Char.toNat, UInt32.toNat] at *; omega
    have ht : (Char.ofNat (c.toNat + 32)).toNat = c.toNat + 32 := charToNatOfNat _ hv
    rw [if_neg]
    intro hcon
    obtain ⟨g1, g2⟩ := hcon
    rw [Char.le_def, UInt32.le_def, BitVec.le_def] at g1 g2
    rw [ha] at g1; rw [hz] at g2
    simp only [Char.toNat, UInt32.toNat] at ht g1 g2 h1 h2
    omega
  · rw [if_neg h, if_neg h]

theorem lowerS_idem (s : Str) : lowerS (lowerS s) = lowerS s := by
  induction s with
  | nil => rfl
  | cons c cs ih =>
    simp only [lowerS, List.map_cons] at *
    rw [lowerChar_idem]
    exact congrArg _ (by simpa [lowerS] using ih)

theorem lowerS_drop_fix (s : Str) (n : Nat) :
    lowerS ((lowerS s).drop n) = (lowerS s).drop n := by
  unfold lowerS
  rw [← List.map_drop]
  simpa [lowerS] using lowerS_idem (s.drop n)

/-- C5 (counterexample): with the mapping `[("A", "x")]` and value
`attachment://A`, the claim's case-sensitive-first lookup of the unchanged
suffix `A` would hit and rewrite, but the code lower-cases the whole value
before splitting, looks up `a`, misses, and leaves the value unchanged. -/
theorem C5_counterexample :
    repl [("A".data, "x".data)] "http://h".data
        (Json.str "attachment://A".data) =
      Json.str "attachment://A".data ∧
    replClaimSpec [("A".data, "x".data)] "http://h".data
        (Json.str "attachment://A".data) =
      Json.str "http://h/uploads/x".data ∧
    Json.str "attachment://A".data ≠ Json.str "http://h/uploads/x".data := by
  refine ⟨rfl, rfl, ?_⟩
  intro h
  injection h with h2
  exact absurd h2 (by decide)

/-- C5 (amended): a scanned string value is rewritten iff it begins with
`attachment://` compared case-insensitively, and the lookup key is the
lower-cased suffix after the scheme: the mapping entry consulted is the one
at the lower-cased key (there is no effective case-sensitive-first lookup,
since the code lower-cases the whole value before extracting the suffix),
and an entry holding an empty string counts as a miss. -/
theorem C5_repl_uses_lowercased_key (m : List (Str × Str)) (base : Str)
    (u : Json) : repl m base u = replAmendedSpec m base u := by
  cases u with
  | str s =>
    simp only [repl, replAmendedSpec]
    by_cases hs : startsWithL (lowerS s) "attachment://".data
    · simp only [hs, if_true]
      rw [lowerS_drop_fix]
      cases h1 : truthyOptStr (aget m ((lowerS s).drop 13)) <;> simp [h1]
    · simp [hs]
  | null => rfl
  | bool b => rfl
  | num n => rfl
  | arr xs => rfl
  | obj kvs => rfl

theorem aget_aset_self {α : Type} (l : List (Str × α)) (k : Str) (v : α) :
    aget (aset l k v) k = some v := by
  induction l with
  | nil => simp [aset, aget]
  | cons kv rest ih =>
    obtain ⟨k1, v1⟩ := kv
    by_cases h : k1 = k
    · simp [aset, h, aget]
    · simp [aset, h, aget, ih]

theorem aget_aset_ne {α : Type} (l : List (Str × α)) (k k2 : Str) (v : α)
    (hne : k2 ≠ k) : aget (aset l k v) k2 = aget l k2 := by
  have hkk : ¬ k = k2 := fun hh => hne hh.symm
  induction l with
  | nil => simp [aset, aget, hkk]
  | cons kv rest ih =>
    obtain ⟨k1, v1⟩ := kv
    by_cases h : k1 = k
    · subst h
      simp [aset, aget, hkk]
    · simp [aset, h, aget, ih]

theorem aset_of_aget {α : Type} (l : List (Str × α)) (k : Str) (v : α)
    (h : aget l k = some v) : aset l k v = l := by
  induction l with
  | nil => simp [aget] at h
  | cons kv rest ih =>
    obtain ⟨k1, v1⟩ := kv
    by_cases hk : k1 = k
    · subst hk
      simp [aget] at h
      simp [aset, h]
    · simp [aget, hk] at h
      simp [aset, hk, ih h]

theorem aset_aset_self {α : Type} (l : List (Str × α)) (k : Str) (v w : α) :
    aset (aset l k v) k w = aset l k w := by
  induction l with
  | nil => simp [aset]
  | cons kv rest ih =>
    obtain ⟨k1, v1⟩ := kv
    by_cases h : k1 = k
    · simp [aset, h]
    · simp [aset, h, ih]

theorem aset_ne_nil {α : Type} (l : List (Str × α)) (k : Str) (v : α) :
    aset l k v ≠ [] := by
  cases l with
  | nil => simp [aset]
  | cons kv rest =>
    obtain ⟨k1, v1⟩ := kv
    by_cases h : k1 = k <;> simp [aset, h]

theorem startsWithL_iff (s p : Str) :
    startsWithL s p = true ↔ ∃ t, s = p ++ t := by
  induction p generalizing s with
  | nil => simp [startsWithL]
  | cons d ds ih =>
    cases s with
    | nil =>
      simp [startsWithL]
    | cons c cs =>
      simp only [startsWithL, Bool.and_eq_true, decide_eq_true_eq, ih,
        List.cons_append, List.cons.injEq]
      constructor
      · rintro ⟨rfl, t, rfl⟩
        exact ⟨t, rfl, rfl⟩
      · rintro ⟨t, rfl, rfl⟩
        exact ⟨rfl, t, rfl⟩

theorem lowerS_append (a b : Str) : lowerS (a ++ b) = lowerS a ++ lowerS b := by
  simp [lowerS]

/-- If the lower-cased, slash-stripped base URL does not begin with
`attachment:`, then no composed upload URL matches the `attachment://`
scheme test: the slash that `/uploads/` contributes cannot line up with any
of the first eleven scheme characters. -/
theorem noAttachPrefix (b' s : Str)
    (hb : startsWithL b' "attachment:".data = false) :
    startsWithL (b' ++ ("/uploads/".data ++ s)) "attachment://".data = false := by
  cases hx : startsWithL (b' ++ ("/uploads/".data ++ s)) "attachment://".data with
  | false => rfl
  | true =>
    exfalso
    rw [startsWithL_iff] at hx
    obtain ⟨t, heq⟩ := hx
    have h13 : ("attachment://".data : Str) = "attachment:".data ++ "//".data := by
      decide
    rw [h13, List.append_assoc] at heq
    rw [List.append_eq_append_iff] at heq
    rcases heq with ⟨a', ha1, ha2⟩ | ⟨c', hc1, _⟩
    · cases a' with
      | nil =>
        rw [List.append_nil] at ha1
        have : startsWithL b' "attachment:".data = true := by
          rw [startsWithL_iff]
          exact ⟨[], by rw [ha1, List.append_nil]⟩
        rw [hb] at this
        exact Bool.false_ne_true this
      | cons c a'' =>
        have hc : c = '/' := by
          have : ('/' :: ("uploads/".data ++ s) : Str) = c :: (a'' ++ ("//".data ++ t)) := ha2
          exact ((List.cons.injEq _ _ _ _ ▸ this).1).symm
        subst hc
        have hmem : ('/' : Char) ∈ ("attachment:".data : Str) := by
          rw [ha1]
          exact List.mem_append_right _ (List.mem_cons_self _ _)
        exact absurd hmem (by decide)
    · have : startsWithL b' "attachment:".data = true := by
        rw [startsWithL_iff]
        exact ⟨c', hc1⟩
      rw [hb] at this
      exact Bool.false_ne_true this

theorem startsWithL_cons_ne (c d : Char) (cs ds : Str) (h : ¬ c = d) :
    startsWithL (c :: cs) (d :: ds) = false := by
  simp [startsWithL, h]

theorem http_not_attach (saved : Str)
    (h : startsWithL saved "http://".data = true ∨
      startsWithL saved "https://".data = true) :
    startsWithL (lowerS saved) "attachment://".data = false := by
  rcases h with h | h
  · rw [startsWithL_iff] at h
    obtain ⟨t, rfl⟩ := h
    have he : ("http://".data ++ t : Str) = 'h' :: ("ttp://".data ++ t) := rfl
    rw [he]
    show startsWithL (lowerChar 'h' :: lowerS ("ttp://".data ++ t))
      ('a' :: "ttachment://".data) = false
    exact startsWithL_cons_ne _ _ _ _ (by decide)
  · rw [startsWithL_iff] at h
    obtain ⟨t, rfl⟩ := h
    have he : ("https://".data ++ t : Str) = 'h' :: ("ttps://".data ++ t) := rfl
    rw [he]
    show startsWithL (lowerChar 'h' :: lowerS ("ttps://".data ++ t))
      ('a' :: "ttachment://".data) = false
    exact startsWithL_cons_ne _ _ _ _ (by decide)

theorem repl_of_not_attach (m : List (Str × Str)) (base : Str) (s : Str)
    (h : startsWithL (lowerS s) "attachment://".data = false) :
    repl m base (Json.str s) = Json.str s := by
  simp [repl, h]

theorem replHit_fixed (m : List (Str × Str)) (base : Str)
    (hb : startsWithL (lowerS (rstripSlash base)) "attachment:".data = false)
    (saved : Str) : repl m base (replHit base saved) = replHit base saved := by
  unfold replHit
  by_cases hh : (startsWithL saved "http://".data ||
      startsWithL saved "https://".data) = true
  · rw [if_pos hh]
    apply repl_of_not_attach
    apply http_not_attach
    simpa using hh
  · rw [if_neg hh]
    apply repl_of_not_attach
    rw [List.append_assoc, lowerS_append]
    have hu : lowerS ("/uploads/".data ++ saved) =
        "/uploads/".data ++ lowerS saved := by
      rw [lowerS_append]
      have : lowerS "/uploads/".data = "/uploads/".data := by decide
      rw [this]
    rw [hu]
    exact noAttachPrefix _ _ hb

theorem repl_idem (m : List (Str × Str)) (base : Str)
    (hb : startsWithL (lowerS (rstripSlash base)) "attachment:".data = false)
    (u : Json) : repl m base (repl m base u) = repl m base u := by
  cases u with
  | str s =>
    have key : repl m base (Json.str s) = Json.str s ∨
        ∃ saved, repl m base (Json.str s) = replHit base saved := by
      cases hs : startsWithL (lowerS s) "attachment://".data with
      | false => left; simp [repl, hs]
      | true =>
        simp only [repl, hs, if_true]
        cases h1 : truthyOptStr (aget m ((lowerS s).drop 13)) with
        | some saved => right; exact ⟨saved, rfl⟩
        | none =>
          cases h2 : truthyOptStr (aget m (lowerS ((lowerS s).drop 13))) with
          | some saved => right; exact ⟨saved, rfl⟩
          | none => left; rfl
    rcases key with h | ⟨saved, h⟩
    · rw [h]; exact h
    · rw [h]; exact replHit_fixed m base hb saved
  | null => rfl
  | bool b => rfl
  | num n => rfl
  | arr xs => rfl
  | obj kvs => rfl

theorem slotNew_ok_some (m : List (Str × Str)) (base : Str) (vo : Option Json)
    (i : List (Str × Json)) (h : slotNew m base vo = Except.ok (some i)) :
    ∃ ikvs, vo = some (Json.obj ikvs) ∧ hasKey ikvs "url".data = true ∧
      i = aset ikvs "url".data
        (repl m base ((aget ikvs "url".data).getD Json.null)) := by
  unfold slotNew at h
  dsimp only at h
  split at h
  case _ ikvs himg =>
    split at h
    case isTrue hk =>
      simp only [Except.ok.injEq, Option.some.injEq] at h
      by_cases ht : truthy (vo.getD Json.null) = true
      · rw [if_pos ht] at himg
        cases vo with
        | none => exact absurd ht (by simp [Option.getD, truthy])
        | some v =>
          simp only [Option.getD] at himg
          subst himg
          exact ⟨ikvs, rfl, hk, h.symm⟩
      · rw [if_neg ht] at himg
        injection himg with hnil
        subst hnil
        exact absurd hk (by simp [hasKey, aget])
    case isFalse hk => simp at h
  case _ s himg =>
    split at h
    · cases h
    · simp at h
  case _ xs himg =>
    split at h
    · cases h
    · simp at h
  case _ him1 him2 =>
    cases h

theorem slotNew_idem (m : List (Str × Str)) (base : Str)
    (hb : startsWithL (lowerS (rstripSlash base)) "attachment:".data = false)
    (vo : Option Json) (i : List (Str × Json))
    (h : slotNew m base vo = Except.ok (some i)) :
    slotNew m base (some (Json.obj i)) = Except.ok (some i) := by
  obtain ⟨ikvs, hvo, hk, hi⟩ := slotNew_ok_some m base vo i h
  have hne : i ≠ [] := by rw [hi]; exact aset_ne_nil _ _ _
  have hgi : aget i "url".data =
      some (repl m base ((aget ikvs "url".data).getD Json.null)) := by
    rw [hi]; exact aget_aset_self _ _ _
  have hki : hasKey i "url".data = true := by simp [hasKey, hgi]
  have htr : truthy (Json.obj i) = true := by
    cases i with
    | nil => exact absurd rfl hne
    | cons a l => simp [truthy]
  unfold slotNew
  dsimp only
  simp only [Option.getD_some]
  rw [if_pos htr]
  dsimp only
  rw [if_pos hki, hgi]
  simp only [Option.getD_some]
  rw [repl_idem m base hb]
  rw [hi, aset_aset_self]

theorem updateSlot_preserves_ne (m : List (Str × Str)) (base : Str)
    (kvs : List (Str × Json)) (n : Str) (kvs' : List (Str × Json)) (n2 : Str)
    (h : updateSlot m base kvs n = Except.ok kvs') (hne : n2 ≠ n) :
    aget kvs' n2 = aget kvs n2 := by
  unfold updateSlot at h
  cases hsn : slotNew m base (aget kvs n) with
  | error e => rw [hsn] at h; cases h
  | ok o =>
    cases o with
    | none => rw [hsn] at h; injection h with h1; rw [← h1]
    | some ikvs =>
      rw [hsn] at h; injection h with h1
      rw [← h1]; exact aget_aset_ne _ _ _ _ hne

theorem updateSlot_stable (m : List (Str × Str)) (base : Str)
    (hb : startsWithL (lowerS (rstripSlash base)) "attachment:".data = false)
    (kvs : List (Str × Json)) (n : Str) (kvs' : List (Str × Json))
    (h : updateSlot m base kvs n = Except.ok kvs') :
    updateSlot m base kvs' n = Except.ok kvs' := by
  unfold updateSlot at h ⊢
  cases hsn : slotNew m base (aget kvs n) with
  | error e => rw [hsn] at h; cases h
  | ok o =>
    cases o with
    | none =>
      rw [hsn] at h; injection h with h1; subst h1
      rw [hsn]
    | some ikvs =>
      rw [hsn] at h; injection h with h1
      have hg : aget kvs' n = some (Json.obj ikvs) := by
        rw [← h1]; exact aget_aset_self _ _ _
      have hidem := slotNew_idem m base hb (aget kvs n) ikvs hsn
      rw [hg, hidem]
      dsimp only
      rw [aset_of_aget _ _ _ hg]

theorem updateSlot_transfer (m : List (Str × Str)) (base : Str)
    (kvs kvs2 : List (Str × Json)) (n : Str)
    (h : updateSlot m base kvs n = Except.ok kvs)
    (heq : aget kvs2 n = aget kvs n) :
    updateSlot m base kvs2 n = Except.ok kvs2 := by
  unfold updateSlot at h ⊢
  rw [heq]
  cases hsn : slotNew m base (aget kvs n) with
  | error e => rw [hsn] at h; cases h
  | ok o =>
    cases o with
    | none => rfl
    | some ikvs =>
      rw [hsn] at h; injection h with h1
      have hg : aget kvs n = some (Json.obj ikvs) := by
        have h2 := aget_aset_self kvs n (Json.obj ikvs)
        rw [h1] at h2; exact h2
      have hg2 : aget kvs2 n = some (Json.obj ikvs) := by rw [heq, hg]
      dsimp only
      rw [aset_of_aget _ _ _ hg2]

theorem patchEmb_stable (m : List (Str × Str)) (base : Str)
    (hb : startsWithL (lowerS (rstripSlash base)) "attachment:".data = false)
    (e e' : Json) (h : patchEmb m base e = Except.ok e') :
    patchEmb m base e' = Except.ok e' := by
  cases e with
  | obj kvs =>
    unfold patchEmb at h
    dsimp only at h
    cases hu1 : updateSlot m base kvs "image".data with
    | error e1 => rw [hu1] at h; dsimp only at h; cases h
    | ok kvs1 =>
      rw [hu1] at h
      dsimp only at h
      cases hu2 : updateSlot m base kvs1 "thumbnail".data with
      | error e2 => rw [hu2] at h; dsimp only at h; cases h
      | ok kvs2 =>
        rw [hu2] at h
        dsimp only at h
        injection h with h1
        subst h1
        have s1 := updateSlot_stable m base hb kvs "image".data kvs1 hu1
        have hne : ("image".data : Str) ≠ "thumbnail".data := by decide
        have hpre := updateSlot_preserves_ne m base kvs1 "thumbnail".data kvs2
          "image".data hu2 hne
        have u1' := updateSlot_transfer m base kvs1 kvs2 "image".data s1 hpre
        have u2' := updateSlot_stable m base hb kvs1 "thumbnail".data kvs2 hu2
        unfold patchEmb
        dsimp only
        rw [u1']
        dsimp only
        rw [u2']
  | null => simp [patchEmb] at h
  | bool b => simp [patchEmb] at h
  | num n => simp [patchEmb] at h
  | str s => simp [patchEmb] at h
  | arr xs => simp [patchEmb] at h

theorem patchEmbs_stable (m : List (Str × Str)) (base : Str)
    (hb : startsWithL (lowerS (rstripSlash base)) "attachment:".data = false) :
    ∀ xs xs', patchEmbs m base xs = Except.ok xs' →
      patchEmbs m base xs' = Except.ok xs' := by
  intro xs
  induction xs with
  | nil =>
    intro xs' h
    unfold patchEmbs at h
    injection h with h1
    subst h1
    rfl
  | cons e es ih =>
    intro xs' h
    unfold patchEmbs at h
    cases he : patchEmb m base e with
    | error e1 => rw [he] at h; dsimp only at h; cases h
    | ok e' =>
      rw [he] at h
      dsimp only at h
      cases hes : patchEmbs m base es with
      | error e2 => rw [hes] at h; dsimp only at h; cases h
      | ok es' =>
        rw [hes] at h
        dsimp only at h
        injection h with h1
        subst h1
        unfold patchEmbs
        rw [patchEmb_stable m base hb e e' he]
        dsimp only
        rw [ih es' hes]

theorem patchEmbs_length (m : List (Str × Str)) (base : Str) :
    ∀ xs xs', patchEmbs m base xs = Except.ok xs' → xs'.length = xs.length := by
  intro xs
  induction xs with
  | nil =>
    intro xs' h
    unfold patchEmbs at h
    injection h with h1
    subst h1
    rfl
  | cons e es ih =>
    intro xs' h
    unfold patchEmbs at h
    cases he : patchEmb m base e with
    | error e1 => rw [he] at h; dsimp only at h; cases h
    | ok e' =>
      rw [he] at h
      dsimp only at h
      cases hes : patchEmbs m base es with
      | error e2 => rw [hes] at h; dsimp only at h; cases h
      | ok es' =>
        rw [hes] at h
        dsimp only at h
        injection h with h1
        subst h1
        simp [ih es' hes]

theorem patchScreenshot_obj (m : List (Str × Str)) (base : Str)
    (kvs1 : List (Str × Json)) :
    ∃ kvsF, patchScreenshot m base kvs1 = Json.obj kvsF := by
  unfold patchScreenshot
  by_cases hsk : hasKey kvs1 "screenshot_url".data = true
  · rw [if_pos hsk]; exact ⟨_, rfl⟩
  · rw [if_neg hsk]; exact ⟨_, rfl⟩

theorem patchScreenshot_stable (m : List (Str × Str)) (base : Str)
    (hb : startsWithL (lowerS (rstripSlash base)) "attachment:".data = false)
    (kvs1 kvsF : List (Str × Json))
    (h : patchScreenshot m base kvs1 = Json.obj kvsF) :
    patchScreenshot m base kvsF = Json.obj kvsF ∧
      aget kvsF "embeds".data = aget kvs1 "embeds".data := by
  unfold patchScreenshot at h ⊢
  by_cases hsk : hasKey kvs1 "screenshot_url".data = true
  · rw [if_pos hsk] at h
    injection h with h1
    subst h1
    constructor
    · have hga := aget_aset_self kvs1 "screenshot_url".data
        (repl m base ((aget kvs1 "screenshot_url".data).getD Json.null))
      have hk2 : hasKey (aset kvs1 "screenshot_url".data
          (repl m base ((aget kvs1 "screenshot_url".data).getD Json.null)))
          "screenshot_url".data = true := by
        simp [hasKey, hga]
      rw [if_pos hk2, hga]
      simp only [Option.getD_some]
      rw [repl_idem m base hb]
      rw [aset_of_aget _ _ _ hga]
    · exact aget_aset_ne _ _ _ _ (by decide)
  · rw [if_neg hsk] at h
    injection h with h1
    subst h1
    refine ⟨?_, rfl⟩
    rw [if_neg hsk]

/-- C4 (counterexample): with the base URL `attachment://x` — the code
concatenates the stripped base verbatim — a first pass turns
`attachment://a` into `attachment://x/uploads/b`, which still matches the
scheme on a second pass and is rewritten again when the mapping also has an
entry at `x/uploads/b`, so the rewriter is not idempotent for every
document, mapping and base URL. -/
theorem C4_counterexample :
    patch_attachment_urls
        (Json.obj [("screenshot_url".data, Json.str "attachment://a".data)])
        [("a".data, "b".data), ("x/uploads/b".data, "c".data)]
        "attachment://x".data =
      Except.ok
        (Json.obj [("screenshot_url".data,
          Json.str "attachment://x/uploads/b".data)]) ∧
    patch_attachment_urls
        (Json.obj [("screenshot_url".data,
          Json.str "attachment://x/uploads/b".data)])
        [("a".data, "b".data), ("x/uploads/b".data, "c".data)]
        "attachment://x".data =
      Except.ok
        (Json.obj [("screenshot_url".data,
          Json.str "attachment://x/uploads/c".data)]) ∧
    Json.obj [("screenshot_url".data, Json.str "attachment://x/uploads/b".data)] ≠
      Json.obj [("screenshot_url".data, Json.str "attachment://x/uploads/c".data)] := by
  refine ⟨rfl, rfl, ?_⟩
  intro h
  simp only [Json.obj.injEq, List.cons.injEq, Prod.mk.injEq, Json.str.injEq] at h
  exact absurd h.1.2 (by decide)

/-- C4 (amended): the rewriter is idempotent whenever the lower-cased,
slash-stripped base URL does not itself begin with `attachment:` — in
particular for every `http(s)`-style base URL a server can present: if one
application succeeds with result `d1`, applying it again yields `d1`
unchanged (rewritten values no longer match the scheme on a second pass). -/
theorem C4_rewrite_idempotent (base : Str)
    (hb : startsWithL (lowerS (rstripSlash base)) "attachment:".data = false)
    (d : Json) (m : List (Str × Str)) (d1 : Json)
    (h : patch_attachment_urls d m base = Except.ok d1) :
    patch_attachment_urls d1 m base = Except.ok d1 := by
  cases d with
  | obj kvs =>
    unfold patch_attachment_urls at h
    dsimp only at h
    by_cases ht : truthy ((aget kvs "embeds".data).getD Json.null) = true
    · rw [if_pos ht] at h
      cases hev : (aget kvs "embeds".data).getD Json.null with
      | arr xs =>
        rw [hev] at h
        dsimp only at h
        cases hxs : patchEmbs m base xs with
        | error err => rw [hxs] at h; dsimp only at h; cases h
        | ok xs' =>
          rw [hxs] at h
          dsimp only at h
          injection h with h1
          obtain ⟨kvsF, hF⟩ := patchScreenshot_obj m base
            (aset kvs "embeds".data (Json.arr xs'))
          rw [hF] at h1
          subst h1
          obtain ⟨hstab, hemb⟩ := patchScreenshot_stable m base hb _ _ hF
          have hg1 : aget kvsF "embeds".data = some (Json.arr xs') := by
            rw [hemb]; exact aget_aset_self _ _ _
          have hxne : xs ≠ [] := by
            intro hc
            rw [hc] at hev
            rw [hev] at ht
            simp [truthy] at ht
          have hxne' : xs' ≠ [] := by
            intro hc
            have := patchEmbs_length m base xs xs' hxs
            rw [hc] at this
            cases xs with
            | nil => exact hxne rfl
            | cons a l => simp at this
          have htr' : truthy (Json.arr xs') = true := by
            cases xs' with
            | nil => exact absurd rfl hxne'
            | cons a l => simp [truthy]
          unfold patch_attachment_urls
          dsimp only
          rw [hg1]
          simp only [Option.getD_some]
          rw [if_pos htr']
          rw [patchEmbs_stable m base hb xs xs' hxs]
          dsimp only
          rw [aset_of_aget _ _ _ hg1]
          rw [hstab]
      | null => rw [hev] at h; dsimp only at h; cases h
      | bool b => rw [hev] at h; dsimp only at h; cases h
      | num n => rw [hev] at h; dsimp only at h; cases h
      | str s => rw [hev] at h; dsimp only at h; cases h
      | obj kvs2 => rw [hev] at h; dsimp only at h; cases h
    · rw [if_neg ht] at h
      injection h with h1
      obtain ⟨kvsF, hF⟩ := patchScreenshot_obj m base kvs
      rw [hF] at h1
      subst h1
      obtain ⟨hstab, hemb⟩ := patchScreenshot_stable m base hb _ _ hF
      unfold patch_attachment_urls
      dsimp only
      rw [hemb]
      rw [if_neg ht]
      rw [hstab]
  | null => simp [patch_attachment_urls] at h
  | bool b => simp [patch_attachment_urls] at h
  | num n => simp [patch_attachment_urls] at h
  | str s => simp [patch_attachment_urls] at h
  | arr xs => simp [patch_attachment_urls] at h

/-- C4 (witness): a concrete run — with base URL `http://h` a first pass
rewrites `attachment://a` to `http://h/uploads/b`, and the second pass
leaves the result untouched. -/
theorem C4_witness :
    patch_attachment_urls
        (Json.obj [("screenshot_url".data, Json.str "http://h/uploads/b".data)])
        [("a".data, "b".data)] "http://h".data =
      Except.ok
        (Json.obj [("screenshot_url".data, Json.str "http://h/uploads/b".data)]) :=
  C4_rewrite_idempotent "http://h".data (by decide)
    (Json.obj [("screenshot_url".data, Json.str "attachment://a".data)])
    [("a".data, "b".data)]
    (Json.obj [("screenshot_url".data, Json.str "http://h/uploads/b".data)])
    rfl

theorem finalStrategy_ok (jloads : Str → Option Json) (b : Str) :
    ∃ j, finalStrategy jloads b = Except.ok j := by
  unfold finalStrategy
  cases hjl : jloads b with
  | none => exact ⟨Json.obj [], rfl⟩
  | some v =>
    cases v with
    | obj kvs => exact ⟨Json.obj kvs, rfl⟩
    | null => exact ⟨Json.obj [], rfl⟩
    | bool b2 => exact ⟨Json.obj [], rfl⟩
    | num n => exact ⟨Json.obj [], rfl⟩
    | str s => exact ⟨Json.obj [], rfl⟩
    | arr xs => exact ⟨Json.obj [], rfl⟩

theorem step3Strategy_ok (jloads : Str → Option Json) (req : Req) :
    ∃ j, step3Strategy jloads req = Except.ok j := by
  unfold step3Strategy
  by_cases hm : containsL (lowerS (req.contentTypeHeader.getD []))
      "multipart/form-data".data = true
  · rw [if_pos hm]
    cases hmb : multipartBranch jloads req with
    | ok j => exact ⟨j, rfl⟩
    | error e => exact finalStrategy_ok jloads req.body
  · rw [if_neg hm]
    exact finalStrategy_ok jloads req.body

theorem step2Strategy_ok (jloads : Str → Option Json)
    (parseQS : Str → List (Str × List Str)) (req : Req) :
    ∃ j, step2Strategy jloads parseQS req = Except.ok j := by
  unfold step2Strategy
  by_cases hu : containsL (lowerS (req.contentTypeHeader.getD []))
      "application/x-www-form-urlencoded".data = true
  · rw [if_pos hu]; exact ⟨_, rfl⟩
  · rw [if_neg hu]
    exact step3Strategy_ok jloads req

/-- C1: for every request — any content-type header, body, multipart form
outcome, and any behaviour of the JSON and query-string decoders, including
raising storage and parse failures inside the multipart branch — the
extractor returns a document rather than propagating an exception; and when
no content-type strategy applies and the raw body fails to decode, it
returns the empty document. -/
theorem C1_extract_never_raises (jloads : Str → Option Json)
    (parseQS : Str → List (Str × List Str)) (req : Req) :
    (∃ j, extract_payload jloads parseQS req = Except.ok j) ∧
    ((containsL (lowerS (req.contentTypeHeader.getD []))
        "application/json".data = false ∧
      containsL (lowerS (req.contentTypeHeader.getD []))
        "application/x-www-form-urlencoded".data = false ∧
      containsL (lowerS (req.contentTypeHeader.getD []))
        "multipart/form-data".data = false ∧
      jloads req.body = none) →
      extract_payload jloads parseQS req = Except.ok (Json.obj [])) := by
  constructor
  · unfold extract_payload
    by_cases hj : containsL (lowerS (req.contentTypeHeader.getD []))
        "application/json".data = true
    · rw [if_pos hj]
      cases hjl : jloads req.body with
      | some j => exact ⟨j, rfl⟩
      | none => exact step2Strategy_ok jloads parseQS req
    · rw [if_neg hj]
      exact step2Strategy_ok jloads parseQS req
  · rintro ⟨hj, hu, hm, hjl⟩
    have hj' : ¬ containsL (lowerS (req.contentTypeHeader.getD []))
        "application/json".data = true := by simp [hj]
    have hu' : ¬ containsL (lowerS (req.contentTypeHeader.getD []))
        "application/x-www-form-urlencoded".data = true := by simp [hu]
    have hm' : ¬ containsL (lowerS (req.contentTypeHeader.getD []))
        "multipart/form-data".data = true := by simp [hm]
    unfold extract_payload step2Strategy step3Strategy
    rw [if_neg hj', if_neg hu', if_neg hm']
    unfold finalStrategy
    rw [hjl]

/-- C1 (witness): a request with no recognised content-type and an
undecodable body yields the empty document. -/
theorem C1_witness :
    extract_payload jloadsNone parseQSEmpty reqNoCtype =
      Except.ok (Json.obj []) :=
  (C1_extract_never_raises jloadsNone parseQSEmpty reqNoCtype).2
    ⟨by decide, by decide, by decide, rfl⟩

theorem patchScreenshot_isObj (m : List (Str × Str)) (base : Str)
    (kvs : List (Str × Json)) : (patchScreenshot m base kvs).isObj = true := by
  obtain ⟨kvsF, hF⟩ := patchScreenshot_obj m base kvs
  rw [hF]
  rfl

theorem patch_ok_obj (j : Json) (m : List (Str × Str)) (base : Str) (r : Json)
    (h : patch_attachment_urls j m base = Except.ok r) : r.isObj = true := by
  cases j with
  | obj kvs =>
    unfold patch_attachment_urls at h
    dsimp only at h
    by_cases ht : truthy ((aget kvs "embeds".data).getD Json.null) = true
    · rw [if_pos ht] at h
      cases hev : (aget kvs "embeds".data).getD Json.null with
      | arr xs =>
        rw [hev] at h
        dsimp only at h
        cases hxs : patchEmbs m base xs with
        | error err => rw [hxs] at h; dsimp only at h; cases h
        | ok xs' =>
          rw [hxs] at h
          dsimp only at h
          injection h with h1
          rw [← h1]
          exact patchScreenshot_isObj m base _
      | null => rw [hev] at h; dsimp only at h; cases h
      | bool b => rw [hev] at h; dsimp only at h; cases h
      | num n => rw [hev] at h; dsimp only at h; cases h
      | str s => rw [hev] at h; dsimp only at h; cases h
      | obj kvs2 => rw [hev] at h; dsimp only at h; cases h
    · rw [if_neg ht] at h
      injection h with h1
      rw [← h1]
      exact patchScreenshot_isObj m base _
  | null => simp [patch_attachment_urls] at h
  | bool b => simp [patch_attachment_urls] at h
  | num n => simp [patch_attachment_urls] at h
  | str s => simp [patch_attachment_urls] at h
  | arr xs => simp [patch_attachment_urls] at h

theorem tryFieldKey_obj (jloads : Str → Option Json)
    (fields : List (Str × Str)) (k : Str) (o : Json)
    (h : tryFieldKey jloads fields k = some o) : o.isObj = true := by
  unfold tryFieldKey at h
  split at h
  · cases h
  · split at h
    · injection h with h1
      rw [← h1]
      rfl
    · cases h

theorem urlencodedBranch_obj (jloads : Str → Option Json)
    (parseQS : Str → List (Str × List Str)) (req : Req) :
    (urlencodedBranch jloads parseQS req).isObj = true := by
  unfold urlencodedBranch
  dsimp only
  cases t1 : tryFieldKey jloads ((parseQS req.body).map
      (fun kv => (kv.1, match kv.2 with | v :: _ => v | [] => ([] : Str))))
      "payload_json".data with
  | some o => exact tryFieldKey_obj _ _ _ _ t1
  | none =>
    dsimp only
    cases t2 : tryFieldKey jloads ((parseQS req.body).map
        (fun kv => (kv.1, match kv.2 with | v :: _ => v | [] => ([] : Str))))
        "payload".data with
    | some o => exact tryFieldKey_obj _ _ _ _ t2
    | none => rfl

theorem multipartBranch_obj (jloads : Str → Option Json) (req : Req) (r : Json)
    (h : multipartBranch jloads req = Except.ok r) : r.isObj = true := by
  unfold multipartBranch at h
  cases hf : req.form with
  | error e => rw [hf] at h; cases h
  | ok items =>
    rw [hf] at h
    dsimp only at h
    cases hp : processFormItems items [] [] with
    | error e => rw [hp] at h; cases h
    | ok fssv =>
      rw [hp] at h
      dsimp only at h
      exact patch_ok_obj _ _ _ _ h

theorem finalStrategy_obj (jloads : Str → Option Json) (b : Str) (r : Json)
    (h : finalStrategy jloads b = Except.ok r) : r.isObj = true := by
  unfold finalStrategy at h
  split at h
  · injection h with h1
    rw [← h1]
    rfl
  · injection h with h1
    rw [← h1]
    rfl

theorem step3Strategy_obj (jloads : Str → Option Json) (req : Req) (r : Json)
    (h : step3Strategy jloads req = Except.ok r) : r.isObj = true := by
  unfold step3Strategy at h
  by_cases hm : containsL (lowerS (req.contentTypeHeader.getD []))
      "multipart/form-data".data = true
  · rw [if_pos hm] at h
    cases hmb : multipartBranch jloads req with
    | ok j =>
      rw [hmb] at h
      dsimp only at h
      injection h with h1
      rw [← h1]
      exact multipartBranch_obj jloads req j hmb
    | error e =>
      rw [hmb] at h
      dsimp only at h
      exact finalStrategy_obj jloads req.body r h
  · rw [if_neg hm] at h
    exact finalStrategy_obj jloads req.body r h

theorem step2Strategy_obj (jloads : Str → Option Json)
    (parseQS : Str → List (Str × List Str)) (req : Req) (r : Json)
    (h : step2Strategy jloads parseQS req = Except.ok r) : r.isObj = true := by
  unfold step2Strategy at h
  by_cases hu : containsL (lowerS (req.contentTypeHeader.getD []))
      "application/x-www-form-urlencoded".data = true
  · rw [if_pos hu] at h
    injection h with h1
    rw [← h1]
    exact urlencodedBranch_obj jloads parseQS req
  · rw [if_neg hu] at h
    exact step3Strategy_obj jloads req r h

theorem extract_obj (jloads : Str → Option Json)
    (parseQS : Str → List (Str × List Str)) (req : Req) (j : Json)
    (hyp : containsL (lowerS (req.contentTypeHeader.getD []))
        "application/json".data = false ∨
      (∀ v, jloads req.body = some v → v.isObj = true))
    (h : extract_payload jloads parseQS req = Except.ok j) : j.isObj = true := by
  unfold extract_payload at h
  by_cases hj : containsL (lowerS (req.contentTypeHeader.getD []))
      "application/json".data = true
  · rw [if_pos hj] at h
    cases hjl : jloads req.body with
    | some v =>
      rw [hjl] at h
      dsimp only at h
      injection h with h1
      rcases hyp with hfalse | hobj
      · rw [hj] at hfalse
        cases hfalse
      · rw [← h1]
        exact hobj v hjl
    | none =>
      rw [hjl] at h
      dsimp only at h
      exact step2Strategy_obj jloads parseQS req j h
  · rw [if_neg hj] at h
    exact step2Strategy_obj jloads parseQS req j h

/-- C2 (counterexample): a POST with content-type `application/json` and
body `[1]` — which `json.loads` decodes to a list, and which the JSON branch
returns without a dict check — is stored with a non-mapping payload. -/
theorem C2_counterexample :
    (dink_webhook jloadsArr1 parseQSEmpty reqJsonArr "t".data 0 "iso".data
        none "id".data).payload = Json.arr [Json.num 1] ∧
    (Json.arr [Json.num 1]).isObj = false := ⟨rfl, rfl⟩

/-- C2 (amended): every stored record carries the given token, a non-null
server-assigned timestamp (both as an instant and as its display string),
and a never-absent payload; the payload is moreover a key-value mapping in
every case except the `application/json` branch, which stores whatever JSON
value the body decodes to — so a JSON array or scalar body is stored as a
non-mapping payload. -/
theorem C2_stored_record (jloads : Str → Option Json)
    (parseQS : Str → List (Str × List Str)) (req : Req) (token : Str)
    (now : Int) (nowIso : Str) (ip : Option Str) (assignedId : Str) :
    (dink_webhook jloads parseQS req token now nowIso ip assignedId).token =
      token ∧
    (dink_webhook jloads parseQS req token now nowIso ip assignedId).time_dt =
      some now ∧
    (dink_webhook jloads parseQS req token now nowIso ip assignedId).time =
      nowIso ∧
    ((containsL (lowerS (req.contentTypeHeader.getD []))
        "application/json".data = false ∨
      (∀ v, jloads req.body = some v → v.isObj = true)) →
      (dink_webhook jloads parseQS req token now nowIso ip
        assignedId).payload.isObj = true) := by
  refine ⟨rfl, rfl, rfl, ?_⟩
  intro hyp
  unfold dink_webhook
  dsimp only
  cases hx : extract_payload jloads parseQS req with
  | error e => rfl
  | ok j =>
    dsimp only
    exact extract_obj jloads parseQS req j hyp hx

/-- C2 (witness): a request with no content-type header stores a mapping
payload. -/
theorem C2_witness :
    (dink_webhook jloadsNone parseQSEmpty reqNoCtype "t".data 0 "iso".data
        none "id".data).payload.isObj = true :=
  (C2_stored_record jloadsNone parseQSEmpty reqNoCtype "t".data 0 "iso".data
    none "id".data).2.2.2 (Or.inl (by decide))

theorem patch_nonobj_error (v : Json) (m : List (Str × Str)) (base : Str)
    (h : v.isObj = false) : patch_attachment_urls v m base = Except.error () := by
  cases v with
  | obj kvs => cases h
  | null => rfl
  | bool b => rfl
  | num n => rfl
  | str s => rfl
  | arr xs => rfl

theorem extract_to_multipart (jloads : Str → Option Json)
    (parseQS : Str → List (Str × List Str)) (req : Req)
    (hj : containsL (lowerS (req.contentTypeHeader.getD []))
      "application/json".data = false)
    (hu : containsL (lowerS (req.contentTypeHeader.getD []))
      "application/x-www-form-urlencoded".data = false)
    (hm : containsL (lowerS (req.contentTypeHeader.getD []))
      "multipart/form-data".data = true) :
    extract_payload jloads parseQS req =
      (match multipartBranch jloads req with
      | Except.ok j => Except.ok j
      | Except.error _ => finalStrategy jloads req.body) := by
  unfold extract_payload step2Strategy step3Strategy
  rw [if_neg (by simp [hj]), if_neg (by simp [hu]), if_pos hm]

theorem multipart_eval (jloads : Str → Option Json) (req : Req)
    (items : List (Str × FormVal)) (fields saved : List (Str × Str))
    (hform : req.form = Except.ok items)
    (hproc : processFormItems items [] [] = Except.ok (fields, saved)) :
    multipartBranch jloads req =
      patch_attachment_urls
        (match jloads (rawOf fields) with
        | some j => j
        | none => Json.obj (fieldsJson fields)) saved req.baseUrl := by
  unfold multipartBranch
  rw [hform]
  dsimp only
  rw [hproc]

/-- C9 (counterexample): a multipart request with one ordinary value field
`a=1` and no `payload_json`/`payload` field returns the empty document —
`raw` defaults to the empty-object literal, which decodes to the empty dict
— not the raw field mapping `\x7ba: 1\x7d` the claim promises. -/
theorem C9_counterexample :
    extract_payload jloadsObjEmpty parseQSEmpty reqMultipartA =
      Except.ok (Json.obj []) ∧
    Json.obj ([] : List (Str × Json)) ≠
      Json.obj [("a".data, Json.str "1".data)] := by
  refine ⟨rfl, ?_⟩
  intro h
  injection h with h1
  cases h1

/-- C9 (amended): in the multipart branch (with a multipart content-type
that declares neither JSON nor form-urlencoded, a parsed form, and all file
saves successful), when neither `payload_json` nor `payload` is a non-empty
field: (A) if both are absent or empty, `raw` defaults to the empty-object
literal and the empty document is returned — not the field mapping; (B) if
the selected field fails to decode, the document returned is the raw field
mapping as transformed by the URI rewriter, whenever the rewriter does not
fault on it; (C) if the selected field decodes to a non-object, the branch
raises inside the rewriter and the extractor falls through to the raw-body
strategy. -/
theorem C9_multipart_nonobject_payload (jloads : Str → Option Json)
    (parseQS : Str → List (Str × List Str)) (req : Req)
    (items : List (Str × FormVal)) (fields saved : List (Str × Str))
    (hj : containsL (lowerS (req.contentTypeHeader.getD []))
      "application/json".data = false)
    (hu : containsL (lowerS (req.contentTypeHeader.getD []))
      "application/x-www-form-urlencoded".data = false)
    (hm : containsL (lowerS (req.contentTypeHeader.getD []))
      "multipart/form-data".data = true)
    (hform : req.form = Except.ok items)
    (hproc : processFormItems items [] [] = Except.ok (fields, saved)) :
    ((truthyOptStr (aget fields "payload_json".data) = none ∧
      truthyOptStr (aget fields "payload".data) = none ∧
      jloads "\x7b\x7d".data = some (Json.obj [])) →
      extract_payload jloads parseQS req = Except.ok (Json.obj [])) ∧
    (∀ r, jloads (rawOf fields) = none →
      patch_attachment_urls (Json.obj (fieldsJson fields)) saved req.baseUrl =
        Except.ok r →
      extract_payload jloads parseQS req = Except.ok r) ∧
    (∀ v, jloads (rawOf fields) = some v → v.isObj = false →
      extract_payload jloads parseQS req = finalStrategy jloads req.body) := by
  have hext := extract_to_multipart jloads parseQS req hj hu hm
  have hmb := multipart_eval jloads req items fields saved hform hproc
  refine ⟨?_, ?_, ?_⟩
  · rintro ⟨h1, h2, h3⟩
    have hraw : rawOf fields = "\x7b\x7d".data := by
      unfold rawOf
      rw [h1, h2]
    rw [hext, hmb, hraw, h3]
    dsimp only
    rfl
  · intro r hn hp
    rw [hext, hmb, hn]
    dsimp only
    rw [hp]
  · intro v hv hnobj
    rw [hext, hmb, hv]
    dsimp only
    rw [patch_nonobj_error v saved req.baseUrl hnobj]

/-- C9 (witness): with the one-field form `a=1` and a decoder that fails on
the defaulted raw string, the extractor returns the raw field mapping. -/
theorem C9_witness :
    extract_payload jloadsNone parseQSEmpty reqMultipartA =
      Except.ok (Json.obj [("a".data, Json.str "1".data)]) :=
  (C9_multipart_nonobject_payload jloadsNone parseQSEmpty reqMultipartA
    [("a".data, FormVal.field "1".data)] [("a".data, "1".data)] []
    (by decide) (by decide) (by decide) rfl rfl).2.1
    (Json.obj [("a".data, Json.str "1".data)]) rfl rfl

theorem digitsFoldl_nonneg (s : Str) :
    ∀ a : Int, 0 ≤ a → (∀ c ∈ s, isDigitChar c = true) →
      0 ≤ s.foldl (fun x c => x * 10 + ((c.toNat : Int) - 48)) a := by
  induction s with
  | nil =>
    intro a ha _
    simpa using ha
  | cons c cs ih =>
    intro a ha hd
    simp only [List.foldl_cons]
    apply ih
    · have hc := hd c (List.mem_cons_self c cs)
      unfold isDigitChar at hc
      simp only [Bool.and_eq_true, decide_eq_true_eq] at hc
      have h48 : 48 ≤ c.toNat := by
        have h1 := hc.1
        rw [Char.le_def, UInt32.le_def, BitVec.le_def] at h1
        have h0 : ('0' : Char).val.toBitVec.toNat = 48 := rfl
        rw [h0] at h1
        simpa [Char.toNat, UInt32.toNat] using h1
      omega
    · intro c2 h2
      exact hd c2 (List.mem_cons_of_mem _ h2)

theorem digitsVal_nonneg (s : Str) (h : isAllDigits s = true) :
    0 ≤ digitsVal s := by
  unfold isAllDigits at h
  simp only [Bool.and_eq_true, List.all_eq_true] at h
  exact digitsFoldl_nonneg s 0 le_rfl h.2

/-- C8 (counterexample): the all-digit string of twenty nines is not
interpreted as Unix seconds — `datetime.fromtimestamp` raises for instants
beyond year 9999 and the `except` swallows it, so the bound is treated as
absent (`none`), not as the number the digits denote. -/
theorem C8_counterexample :
    parse_time_param_dt fromisoNone (some "99999999999999999999".data) =
      none ∧
    isAllDigits (stripWs "99999999999999999999".data) = true ∧
    digitsVal (stripWs "99999999999999999999".data) = 99999999999999999999 := by
  refine ⟨rfl, by decide, by decide⟩

/-- C8 (amended): an all-digit `since`/`until` string denoting an instant
within `datetime`'s representable range (at most 253402300799, the end of
year 9999) is read as Unix seconds UTC, while an all-digit string beyond the
range counts as unparseable; an ISO-8601 string with trailing `Z` is handed
to the parser with the `Z` replaced by `+00:00`; a parsed timestamp without
offset is assumed UTC; an unparseable value yields no bound; and the window
is applied inclusively on both ends. -/
theorem C8_time_window (fromiso : Str → Option PyDateTime) (val : Option Str) :
    (∀ v, val = some v → v.isEmpty = false → isAllDigits (stripWs v) = true →
      digitsVal (stripWs v) ≤ 253402300799 →
      parse_time_param_dt fromiso val = some (digitsVal (stripWs v))) ∧
    (∀ v, val = some v → v.isEmpty = false → isAllDigits (stripWs v) = false →
      (stripWs v).getLast? = some 'Z' →
      parse_time_param_dt fromiso val =
        (match fromiso ((stripWs v).dropLast ++ "+00:00".data) with
        | none => none
        | some dt => some (instantOf dt))) ∧
    (∀ n : Int, instantOf ⟨n, none⟩ = n) ∧
    (∀ v, val = some v → isAllDigits (stripWs v) = false →
      fromiso (if (stripWs v).getLast? = some 'Z' then
        (stripWs v).dropLast ++ "+00:00".data else stripWs v) = none →
      parse_time_param_dt fromiso val = none) ∧
    (∀ (s u t : Int) (d : EventDoc), d.time_dt = some t →
      docMatches ⟨none, none, some s, some u⟩ d =
        (decide (s ≤ t) && decide (t ≤ u))) := by
  refine ⟨?_, ?_, ?_, ?_, ?_⟩
  · rintro v rfl hE hD hB
    unfold parse_time_param_dt
    dsimp only
    rw [if_neg (by simp [hE]), if_pos hD]
    unfold fromtimestampUtc
    rw [if_pos]
    constructor
    · have := digitsVal_nonneg (stripWs v) hD
      omega
    · exact hB
  · rintro v rfl hE hD hZ
    unfold parse_time_param_dt
    dsimp only
    rw [if_neg (by simp [hE]), if_neg (by simp [hD]), if_pos hZ]
  · intro n
    simp [instantOf]
  · rintro v rfl hD hparse
    unfold parse_time_param_dt
    dsimp only
    by_cases hE : v.isEmpty = true
    · rw [if_pos hE]
    · rw [if_neg hE, if_neg (by simp [hD])]
      rw [hparse]
  · intro s u t d hd
    unfold docMatches
    rw [hd]
    simp

/-- C8 (witness): the all-digit string 1700000000 is read as that Unix
instant. -/
theorem C8_witness :
    parse_time_param_dt fromisoNone (some "1700000000".data) =
      some 1700000000 :=
  (C8_time_window fromisoNone (some "1700000000".data)).1 "1700000000".data
    rfl (by decide) (by decide) (by decide)

/-- C3: for every store and every query, `total` is the number of matching
records ignoring limit and offset, `events` is the requested page — the
clamped window of the descending-sorted matching records, shaped row by row
— and `next_offset` is `offset + len(events)` exactly when that value is
strictly below `total`, and null otherwise. -/
theorem C3_pagination (isoFmt : Int → Str) (fromiso : Str → Option PyDateTime)
    (p : QueryParams) (store : List EventDoc) :
    (recent_json isoFmt fromiso p store).total =
      (store.filter (fun d => docMatches (buildQuery fromiso p) d)).length ∧
    (recent_json isoFmt fromiso p store).events =
      (((sortDesc (store.filter (fun d => docMatches (buildQuery fromiso p) d))).drop
          (clampOffset p.offset).toNat).take
          (clampLimit p.limit).toNat).map (rowOf isoFmt) ∧
    (recent_json isoFmt fromiso p store).next_offset =
      (if (clampOffset p.offset +
            ((recent_json isoFmt fromiso p store).events.length : Int)) <
          ((recent_json isoFmt fromiso p store).total : Int) then
        some (clampOffset p.offset +
          ((recent_json isoFmt fromiso p store).events.length : Int))
      else none) := by
  refine ⟨rfl, rfl, ?_⟩
  unfold recent_json count_documents findDocs
  dsimp only
  split_ifs with h1 h2 <;> first | rfl | (exfalso; omega)

/-- C10: an empty `token` or `type` query value disables that filter
entirely rather than matching the empty string: with both empty and no time
bounds, every stored record matches the query; moreover the `eventType`
constraint the query layer builds is never the empty string (a non-empty
`type` upper-cases to a non-empty value), while ingestion assigns the empty
eventType exactly when a mapping payload has no `type` key — so such
records can never be selected exclusively. -/
theorem C10_empty_filter_disables (fromiso : Str → Option PyDateTime)
    (p : QueryParams) :
    (p.token = [] → (buildQuery fromiso p).qToken = none) ∧
    (p.type = some [] → (buildQuery fromiso p).qType = none) ∧
    (p.token = [] → p.type = some [] → p.since = none → p.untl = none →
      ∀ d, docMatches (buildQuery fromiso p) d = true) ∧
    ((buildQuery fromiso p).qType ≠ some []) ∧
    (∀ jloads parseQS req token now nowIso ip aid kvs,
      extract_payload jloads parseQS req = Except.ok (Json.obj kvs) →
      aget kvs "type".data = none →
      (dink_webhook jloads parseQS req token now nowIso ip aid).eventType =
        []) := by
  refine ⟨?_, ?_, ?_, ?_, ?_⟩
  · intro h
    simp [buildQuery, h]
  · intro h
    simp [buildQuery, h]
  · intro h1 h2 h3 h4 d
    unfold docMatches buildQuery
    rw [h1, h2, h3, h4]
    simp [parse_time_param_dt]
  · unfold buildQuery
    dsimp only
    cases hty : p.type with
    | none => simp
    | some t =>
      dsimp only
      by_cases hE : t.isEmpty = true
      · rw [if_pos hE]
        simp
      · rw [if_neg hE]
        simp only [ne_eq, Option.some.injEq]
        intro hc
        unfold upperS at hc
        rw [List.map_eq_nil_iff] at hc
        rw [hc] at hE
        exact hE rfl
  · intro jloads parseQS req token now nowIso ip aid kvs hx hget
    unfold dink_webhook
    rw [hx]
    dsimp only
    rw [hget]
    rfl

/-- C10 (witness): with `token=""` and `type=""`, a concrete stored record
of token `t` and eventType `A` matches the query. -/
theorem C10_witness :
    docMatches (buildQuery fromisoNone pEmptyFilters) docA = true :=
  (C10_empty_filter_disables fromisoNone pEmptyFilters).2.2.1 rfl rfl rfl rfl
    docA
